import Mathlib

/-!
Verification development for the transcript-enhancement server.

The definitions below are a shallow embedding of the TypeScript sources:

* `src/server.ts` — the `/api/enhance` batched correction pipeline
  (`enhanceBatchesAux` / `enhance`), the change detector embedded in the
  batch callback (`correctItem`), the retry controller (`withRetryGo` /
  `withRetryRun`), the per-call oracle invoker (`handleResponse` /
  `makeRequest`), and URL handling (`extractVideoId`,
  `validateYouTubeInput`).

JavaScript string primitives (`split`, `trim`, `includes`, `slice`) are
re-implemented on character lists (`splitCL`, `jsTrim`, `containsCL`,
`jsSlice`) so that every definition is executable and kernel-reducible.

Network effects are made explicit: the correction oracle is a function
parameter giving the text returned for each call, and a failing attempt
is `none` in the retry controller's thunk.
-/

/-- Whitespace test used by the embedding of JavaScript's
`String.prototype.trim` (space, tab, carriage return, newline). -/
def jsIsWhitespace (c : Char) : Bool :=
  c == ' ' || c == '\t' || c == '\r' || c == '\n'

/-- Embedding of JavaScript's `s.trim()`: remove leading and trailing
whitespace characters. -/
def jsTrim (s : String) : String :=
  ⟨((s.data.dropWhile jsIsWhitespace).reverse.dropWhile jsIsWhitespace).reverse⟩

/-- Does the first character list occur as a prefix of the second? -/
def isPrefixCL : List Char → List Char → Bool
  | [], _ => true
  | _ :: _, [] => false
  | p :: ps, c :: cs => p == c && isPrefixCL ps cs

/-- Does `sub` occur as a contiguous sublist of the second argument? -/
def containsCL (sub : List Char) : List Char → Bool
  | [] => isPrefixCL sub []
  | c :: cs => isPrefixCL sub (c :: cs) || containsCL sub cs

/-- Embedding of JavaScript's `s.includes(sub)`. -/
def jsIncludes (s sub : String) : Bool :=
  containsCL sub.data s.data

/-- Split a character list at each non-overlapping occurrence of `sep`
(scanning left to right), like JavaScript's `String.prototype.split` with
a non-empty string separator.  `acc` holds the current chunk reversed;
`fuel` bounds the recursion (the caller passes the list length, which
suffices because every step consumes at least one character). -/
def splitCL (sep : List Char) : Nat → List Char → List Char → List (List Char)
  | _, acc, [] => [acc.reverse]
  | 0, acc, rest => [acc.reverse ++ rest]
  | fuel + 1, acc, c :: cs =>
      if isPrefixCL sep (c :: cs) then
        acc.reverse :: splitCL sep fuel [] (cs.drop (sep.length - 1))
      else
        splitCL sep fuel (c :: acc) cs

/-- Embedding of JavaScript's `s.split(sep)` for a non-empty separator
(the sources only ever split on non-empty literals; the empty-separator
case never arises and is mapped to `[s]`). -/
def jsSplit (s sep : String) : List String :=
  if sep.data.isEmpty then [s]
  else (splitCL sep.data s.data.length [] s.data).map (fun cs => ⟨cs⟩)

/-- JavaScript `s.split(sep)[0]`: the text before the first occurrence of
`sep` (or all of `s` when `sep` does not occur). -/
def jsSplitHead (s sep : String) : String :=
  (jsSplit s sep).headD s

/-- JavaScript `s.split(sep)[1]`, which is `undefined` when `sep` does not
occur (hence `Option`). -/
def jsSplitAt1 (s sep : String) : Option String :=
  (jsSplit s sep).get? 1

/-- Embedding of JavaScript's `xs.slice(start, stop)` for non-negative
indices (both clamped to the array length). -/
def jsSlice (xs : List α) (start stop : Nat) : List α :=
  (xs.take stop).drop start

/-- Embedding of JavaScript's `xs.slice(-n)` (the last `n` entries; for
`n = 0` the whole array, since `-0` is `0`). -/
def jsSliceLast (xs : List α) (n : Nat) : List α :=
  if n = 0 then xs else xs.drop (xs.length - n)

/-- The `TranscriptItem` interface of `src/server.ts` (lines 61–68):
a timed transcript segment with the optional annotation fields added by
the enhancement endpoint.  An absent optional field is `none`. -/
structure TranscriptItem where
  text : String
  duration : Int
  offset : Int
  original : Option String := none
  corrected : Option String := none
  hasError : Option Bool := none
deriving DecidableEq

/-- The `config.ai.batchSize` constant of `src/config/index.ts`. -/
def configBatchSize : Nat := 3

/-- The `config.ai.contextLines` constant of `src/config/index.ts`. -/
def configContextLines : Nat := 3

/-- The body of the `batch.map` callback of the `/api/enhance` handler
(`src/server.ts` lines 366–380): run the correction call for the segment
at global index `currentIndex` with the given context, then apply the
change detector.  `fc currentIndex text context` stands for the value of
`await factCheckWithAI(item.text, context)` for that call (the oracle is
a parameter because its replies come from the network). -/
def correctItem (fc : Nat → String → List String → String)
    (currentIndex : Nat) (context : List String) (item : TranscriptItem) :
    TranscriptItem :=
  let correctedText := fc currentIndex item.text context
  let hasError := jsTrim correctedText != jsTrim item.text
  { item with
    text := correctedText
    original := if hasError then some item.text else none
    corrected := if hasError then some correctedText else none
    hasError := some hasError }

/-- JavaScript's `Array.prototype.map` with the element index passed to
the callback; the first argument is the index of the head. -/
def mapWithIndex (f : Nat → α → β) : Nat → List α → List β
  | _, [] => []
  | k, a :: as => f k a :: mapWithIndex f (k + 1) as

/-- The batch loop of the `/api/enhance` handler (`src/server.ts` lines
363–394).  `i` is the loop counter (start index of the current batch) and
`processedTexts` the completed-corrected-texts log, appended to only
after the batch's `Promise.all` resolves.  Each entry of the result pairs
the annotated output item with the context that was supplied to its
correction call (`processedTexts.slice(Math.max(0, currentIndex -
contextLines), currentIndex)`; `Nat` subtraction is the `Math.max(0, ·)`).
`fuel` bounds the recursion; `transcript.length` suffices because every
iteration consumes at least one segment when `1 ≤ B`. -/
def enhanceBatchesAux (fc : Nat → String → List String → String) (B C : Nat) :
    Nat → List TranscriptItem → Nat → List String →
    List (TranscriptItem × List String)
  | 0, _, _, _ => []
  | _ + 1, [], _, _ => []
  | fuel + 1, item :: rest, i, processedTexts =>
      let results := mapWithIndex (fun idx it =>
          let currentIndex := i + idx
          let context := jsSlice processedTexts (currentIndex - C) currentIndex
          (correctItem fc currentIndex context it, context)) 0
        ((item :: rest).take B)
      results ++ enhanceBatchesAux fc B C fuel ((item :: rest).drop B) (i + B)
          (processedTexts ++ results.map (fun r => r.1.text))

/-- The full run of the batch loop on a transcript, producing for each
segment the annotated output item together with the context supplied to
its correction call. -/
def enhanceFull (fc : Nat → String → List String → String) (B C : Nat)
    (transcript : List TranscriptItem) : List (TranscriptItem × List String) :=
  enhanceBatchesAux fc B C transcript.length transcript 0 []

/-- The `corrected` array returned by the `/api/enhance` handler. -/
def enhance (fc : Nat → String → List String → String) (B C : Nat)
    (transcript : List TranscriptItem) : List TranscriptItem :=
  (enhanceFull fc B C transcript).map Prod.fst

/-- The context supplied to the correction call of the segment at global
index `idx` (the `context` argument passed to `factCheckWithAI`). -/
def segContext (fc : Nat → String → List String → String) (B C : Nat)
    (transcript : List TranscriptItem) (idx : Nat) : List String :=
  (((enhanceFull fc B C transcript).map Prod.snd).getD idx [])

/-- The request-level behaviour of the `/api/enhance` route
(`src/server.ts` lines 340–399): reject a missing or non-array body,
reject an empty transcript, otherwise answer with the corrected
sequence. -/
def enhanceEndpoint (fc : Nat → String → List String → String) (B C : Nat) :
    Option (List TranscriptItem) → Except String (List TranscriptItem)
  | none => Except.error "Invalid transcript data"
  | some ts =>
      if ts.isEmpty then Except.error "Transcript is empty"
      else Except.ok (enhance fc B C ts)

/-- The loop of `withRetry` (`src/server.ts` lines 161–183).  `f attempt`
is the outcome of attempt number `attempt` (`none` when the thunk throws).
`remaining` counts the retries still allowed, so that `attempt <
maxRetries` in the source is `remaining ≠ 0` here.  The result records
the value (or `none` on exhaustion), the number of attempts made, and the
list of back-off sleeps performed (`baseDelay * 2 ^ attempt` each). -/
def withRetryGo (f : Nat → Option α) (baseDelay : Nat) :
    Nat → Nat → Option α × Nat × List Nat
  | attempt, remaining =>
      match f attempt, remaining with
      | some v, _ => (some v, attempt + 1, [])
      | none, 0 => (none, attempt + 1, [])
      | none, r + 1 =>
          let delay := baseDelay * 2 ^ attempt
          let rec' := withRetryGo f baseDelay (attempt + 1) r
          (rec'.1, rec'.2.1, delay :: rec'.2.2)

/-- `withRetry(fn, maxRetries, baseDelay)` of `src/server.ts`, with the
attempt count and back-off sleeps recorded alongside the result. -/
def withRetryRun (f : Nat → Option α) (maxRetries baseDelay : Nat) :
    Option α × Nat × List Nat :=
  withRetryGo f baseDelay 0 maxRetries

/-- The retry-and-fallback wrapper of `factCheckWithAI` (`src/server.ts`
lines 275–281): run the request thunk under `withRetry(·, 3, 1000)` and,
if every attempt fails, return the original text unchanged. -/
def factCheckWithAI (f : Nat → Option String) (text : String) : String :=
  match (withRetryRun f 3 1000).1 with
  | some t => t
  | none => text

/-- The context selection of the prompt built inside `factCheckWithAI`
(`src/server.ts` line 226): `context.slice(-config.ai.contextLines)`. -/
def promptContext (C : Nat) (context : List String) : List String :=
  jsSliceLast context C

/-- The observable part of a settled `fetch` reply to the correction
request: `ok`, `status`, and the optional completion text reached by
`data.choices?.[0]?.message?.content` (`none` when any step of that chain
is missing). -/
structure FetchResponse where
  ok : Bool
  status : Nat
  content : Option String
deriving DecidableEq

/-- Outcome of one correction call: the returned text, or the message of
the error it throws. -/
inductive InvokeResult
  | success (text : String)
  | failure (message : String)
deriving DecidableEq

/-- The response handling of `makeRequest` inside `factCheckWithAI`
(`src/server.ts` lines 261–272): throw on a non-ok status; trim the
completion text and throw when it is missing or empty (an empty string is
falsy in JavaScript); otherwise return the trimmed text. -/
def handleResponse (resp : FetchResponse) : InvokeResult :=
  if !resp.ok then
    InvokeResult.failure ("AI API request failed with status " ++ toString resp.status)
  else
    match resp.content.map jsTrim with
    | some t =>
        if t = "" then InvokeResult.failure "No response from AI"
        else InvokeResult.success t
    | none => InvokeResult.failure "No response from AI"

/-- Model of the `fetch` call's settling: `signal` is an abort-signal
deadline in milliseconds (`none` when, as in `makeRequest`, no signal is
passed in the options), `elapsedMs` is how long the oracle took to
answer, and `resp` the reply.  A passed signal whose deadline is exceeded
rejects the call with an abort error; with no signal the reply is
delivered regardless of elapsed time. -/
def fetchModel (signal : Option Nat) (elapsedMs : Nat) (resp : FetchResponse) :
    Except String FetchResponse :=
  match signal with
  | some deadline =>
      if deadline < elapsedMs then Except.error "AbortError" else Except.ok resp
  | none => Except.ok resp

/-- One correction call: the `makeRequest` thunk of `factCheckWithAI`
(`src/server.ts` lines 224–273).  The source passes no abort signal to
`fetch`, so the call is modelled with `signal := none` and its outcome
cannot depend on `elapsedMs`. -/
def makeRequest (elapsedMs : Nat) (resp : FetchResponse) : InvokeResult :=
  match fetchModel none elapsedMs resp with
  | Except.ok r => handleResponse r
  | Except.error e => InvokeResult.failure e

/-- The `extractVideoId` function of `src/server.ts` (lines 124–146),
with each optional-chaining `split(...)[...]` rendered through `jsSplit`.
The final line strips any remaining query, fragment, or parameter
suffix. -/
def extractVideoId (input : String) : String :=
  let videoId :=
    if jsIncludes input "youtube.com/watch?v=" then
      ((jsSplitAt1 input "v=").map
        (fun s => jsSplitHead (jsSplitHead s "&") "?")).getD ""
    else if jsIncludes input "youtu.be/" then
      ((jsSplitAt1 input "youtu.be/").map
        (fun s => jsSplitHead (jsSplitHead s "?") "&")).getD ""
    else if jsIncludes input "youtube.com/shorts/" then
      ((jsSplitAt1 input "shorts/").map
        (fun s => jsSplitHead (jsSplitHead s "?") "&")).getD ""
    else if jsIncludes input "youtube.com/embed/" then
      ((jsSplitAt1 input "embed/").map
        (fun s => jsSplitHead (jsSplitHead s "?") "&")).getD ""
    else jsTrim input
  jsSplitHead (jsSplitHead (jsSplitHead videoId "?") "#") "&"

/-- Result shape of `validateYouTubeInput`. -/
structure ValidationResult where
  valid : Bool
  videoId : Option String := none
  error : Option String := none
deriving DecidableEq

/-- The test `/^[a-zA-Z0-9_-]{5,20}$/.test(videoId)` of `src/server.ts`
line 112. -/
def matchesIdPattern (s : String) : Bool :=
  decide (5 ≤ s.length) && decide (s.length ≤ 20) &&
    s.data.all (fun c => c.isAlphanum || c == '_' || c == '-')

/-- The `validateYouTubeInput` function of `src/server.ts` (lines
91–117).  `isURL` is the external `validator.isURL` predicate (a
third-party library, passed in as a parameter); it is only consulted when
the trimmed input looks like a URL (contains "://" or "www."). -/
def validateYouTubeInput (isURL : String → Bool) (input : String) :
    ValidationResult :=
  if input = "" then ⟨false, none, some "Invalid input"⟩
  else
    let trimmed := jsTrim input
    if (jsIncludes trimmed "://" || jsIncludes trimmed "www.") &&
        !(isURL trimmed) then
      ⟨false, none, some "Invalid URL format"⟩
    else
      let videoId := extractVideoId trimmed
      if videoId = "" || decide (videoId.length < 5) then
        ⟨false, none, some "Could not extract valid video ID"⟩
      else if !(matchesIdPattern videoId) then
        ⟨false, none, some "Invalid video ID format"⟩
      else ⟨true, some videoId, none⟩

/-- The seven-segment input of the specification's concrete scenario:
texts "a" … "g". -/
def sevenSegs : List TranscriptItem :=
  [⟨"a", 1, 0, none, none, none⟩, ⟨"b", 1, 1, none, none, none⟩,
   ⟨"c", 1, 2, none, none, none⟩, ⟨"d", 1, 3, none, none, none⟩,
   ⟨"e", 1, 4, none, none, none⟩, ⟨"f", 1, 5, none, none, none⟩,
   ⟨"g", 1, 6, none, none, none⟩]

/-- The oracle of the specification's concrete scenario: every text is
returned unchanged except "e", which is corrected to "E". -/
def specOracle : Nat → String → List String → String :=
  fun _ t _ => if t = "e" then "E" else t

/-- Shape of an output segment whose correction left the text unchanged:
annotation fields cleared, `hasError` set to `false`. -/
def clearedItem (item : TranscriptItem) : TranscriptItem :=
  { item with original := none, corrected := none, hasError := some false }

theorem length_mapWithIndex (f : Nat → α → β) :
    ∀ (k : Nat) (l : List α), (mapWithIndex f k l).length = l.length := by
  intro k l
  induction l generalizing k with
  | nil => rfl
  | cons a t ih => simp [mapWithIndex, ih]

theorem getElem?_mapWithIndex (f : Nat → α → β) :
    ∀ (k : Nat) (l : List α) (j : Nat),
      (mapWithIndex f k l)[j]? = (l[j]?).map (f (k + j)) := by
  intro k l
  induction l generalizing k with
  | nil => intro j; simp [mapWithIndex]
  | cons a t ih =>
      intro j
      cases j with
      | zero => simp [mapWithIndex]
      | succ m =>
          simp only [mapWithIndex, List.getElem?_cons_succ, ih]
          have h : k + 1 + m = k + (m + 1) := by omega
          rw [h]

theorem enhanceBatchesAux_length (fc : Nat → String → List String → String)
    (B C : Nat) (hB : 1 ≤ B) :
    ∀ (fuel : Nat) (items : List TranscriptItem) (i : Nat) (log : List String),
      items.length ≤ fuel →
      (enhanceBatchesAux fc B C fuel items i log).length = items.length := by
  intro fuel
  induction fuel with
  | zero =>
      intro items i log h
      have : items = [] := List.length_eq_zero.mp (Nat.le_zero.mp h)
      subst this
      rfl
  | succ n ih =>
      intro items i log h
      cases items with
      | nil => rfl
      | cons a t =>
          have hlen : ((a :: t).drop B).length ≤ n := by
            simp only [List.length_drop, List.length_cons] at *
            omega
          simp only [enhanceBatchesAux, List.length_append,
            length_mapWithIndex, ih _ _ _ hlen, List.length_take,
            List.length_drop, List.length_cons]
          omega

theorem jsSlice_of_length_le (xs : List α) (s e : Nat) (h : xs.length ≤ e) :
    jsSlice xs s e = xs.drop s := by
  simp [jsSlice, List.take_of_length_le h]

theorem lt_length_of_getElem?_eq_some {l : List α} {j : Nat} {a : α}
    (h : l[j]? = some a) : j < l.length := by
  by_contra hj
  push_neg at hj
  rw [List.getElem?_eq_none hj] at h
  exact absurd h (by simp)

theorem enhanceBatchesAux_getElem? (fc : Nat → String → List String → String)
    (B C : Nat) (hB : 1 ≤ B) :
    ∀ (fuel : Nat) (items : List TranscriptItem) (i : Nat) (log : List String),
      items.length ≤ fuel →
      ∀ (j : Nat) (item : TranscriptItem), items[j]? = some item →
        (enhanceBatchesAux fc B C fuel items i log)[j]? =
          some (correctItem fc (i + j)
              (jsSlice (log ++ (((enhanceBatchesAux fc B C fuel items i log).map
                  (fun p => p.1.text)).take (B * (j / B)))) (i + j - C) (i + j)) item,
            jsSlice (log ++ (((enhanceBatchesAux fc B C fuel items i log).map
                (fun p => p.1.text)).take (B * (j / B)))) (i + j - C) (i + j)) := by
  intro fuel
  induction fuel with
  | zero =>
      intro items i log h j item hitem
      have : items = [] := List.length_eq_zero.mp (Nat.le_zero.mp h)
      subst this
      simp at hitem
  | succ n ih =>
      intro items i log h j item hitem
      cases items with
      | nil => simp at hitem
      | cons a t =>
          have hj : j < (a :: t).length := lt_length_of_getElem?_eq_some hitem
          simp only [enhanceBatchesAux]
          set res := mapWithIndex (fun idx it =>
              (correctItem fc (i + idx)
                  (jsSlice log (i + idx - C) (i + idx)) it,
                jsSlice log (i + idx - C) (i + idx))) 0 ((a :: t).take B) with hres
          set rec1 := enhanceBatchesAux fc B C n ((a :: t).drop B) (i + B)
            (log ++ res.map (fun r => r.1.text)) with hrec1
          by_cases hcase : j < B
          · -- first batch: j / B = 0, the context is a window over the incoming log
            have hdiv : j / B = 0 := Nat.div_eq_of_lt hcase
            have hreslen : j < res.length := by
              rw [hres, length_mapWithIndex, List.length_take]
              simp only [List.length_cons] at hj ⊢
              omega
            rw [hdiv]
            simp only [Nat.mul_zero, List.take_zero, List.append_nil]
            rw [List.getElem?_append_left hreslen, hres, getElem?_mapWithIndex,
              List.getElem?_take, if_pos hcase, hitem]
            simp
          · -- later batch: step into the recursive call
            have hBle : B ≤ j := Nat.le_of_not_lt hcase
            have hBlt : B < (a :: t).length := Nat.lt_of_le_of_lt hBle hj
            have hreslen : res.length = B := by
              rw [hres, length_mapWithIndex, List.length_take]
              simp only [List.length_cons] at hBlt ⊢
              omega
            have hlen' : ((a :: t).drop B).length ≤ n := by
              simp only [List.length_drop, List.length_cons] at *
              omega
            have hitem' : ((a :: t).drop B)[j - B]? = some item := by
              rw [List.getElem?_drop]
              rw [show B + (j - B) = j by omega]
              exact hitem
            have IH := ih ((a :: t).drop B) (i + B)
              (log ++ res.map (fun r => r.1.text)) hlen' (j - B) item hitem'
            rw [List.getElem?_append_right (by omega : res.length ≤ j), hreslen]
            rw [← hrec1] at IH
            rw [IH]
            have harith : i + B + (j - B) = i + j := by omega
            have hone : 1 ≤ j / B :=
              (Nat.one_le_div_iff (by omega : 0 < B)).mpr hBle
            have hdivj : j / B = (j - B) / B + 1 := by
              have hd := Nat.add_div_right (j - B) (show 0 < B by omega)
              rw [show j - B + B = j by omega] at hd
              omega
            have hctx : log ++ (((res ++ rec1).map (fun p => p.1.text)).take
                  (B * (j / B))) =
                (log ++ res.map (fun p => p.1.text)) ++
                  ((rec1.map (fun p => p.1.text)).take (B * ((j - B) / B))) := by
              rw [List.map_append, List.take_append_eq_append_take,
                List.length_map, hreslen,
                List.take_of_length_le (by
                  rw [List.length_map, hreslen]
                  calc B = B * 1 := (Nat.mul_one B).symm
                    _ ≤ B * (j / B) := Nat.mul_le_mul_left B hone)]
              rw [hdivj, Nat.mul_add, Nat.mul_one, Nat.add_sub_cancel,
                List.append_assoc]
            rw [harith, hctx]

theorem enhance_length (fc : Nat → String → List String → String) (B C : Nat)
    (hB : 1 ≤ B) (T : List TranscriptItem) :
    (enhance fc B C T).length = T.length := by
  simp [enhance, enhanceFull,
    enhanceBatchesAux_length fc B C hB T.length T 0 [] le_rfl]

theorem enhance_textMap (fc : Nat → String → List String → String) (B C : Nat)
    (T : List TranscriptItem) :
    (enhance fc B C T).map (fun r => r.text) =
      (enhanceFull fc B C T).map (fun p => p.1.text) := by
  simp [enhance, List.map_map, Function.comp]

theorem segContext_spec (fc : Nat → String → List String → String) (B C : Nat)
    (hB : 1 ≤ B) (T : List TranscriptItem) (idx : Nat) (item : TranscriptItem)
    (h : T[idx]? = some item) :
    (enhanceFull fc B C T)[idx]? =
      some (correctItem fc idx (segContext fc B C T idx) item,
        segContext fc B C T idx) ∧
    segContext fc B C T idx =
      (((enhance fc B C T).map (fun r => r.text)).take (B * (idx / B))).drop
        (idx - C) := by
  have master := enhanceBatchesAux_getElem? fc B C hB T.length T 0 [] le_rfl
    idx item h
  simp only [List.nil_append, Nat.zero_add] at master
  have hfold : enhanceBatchesAux fc B C T.length T 0 [] = enhanceFull fc B C T :=
    rfl
  rw [hfold] at master
  have hlen : (((enhanceFull fc B C T).map (fun p => p.1.text)).take
      (B * (idx / B))).length ≤ idx := by
    rw [List.length_take]
    have := Nat.mul_div_le idx B
    omega
  rw [jsSlice_of_length_le _ _ _ hlen] at master
  have hsc : segContext fc B C T idx =
      (((enhanceFull fc B C T).map (fun p => p.1.text)).take
        (B * (idx / B))).drop (idx - C) := by
    simp only [segContext, List.getD_eq_getElem?_getD, List.getElem?_map,
      master]
    simp
  refine ⟨?_, ?_⟩
  · rw [hsc]
    exact master
  · rw [hsc, enhance_textMap]

theorem withRetryGo_allFail {α : Type _} (f : Nat → Option α) (baseDelay : Nat)
    (hf : ∀ a, f a = none) :
    ∀ (remaining attempt : Nat),
      withRetryGo f baseDelay attempt remaining =
        (none, attempt + remaining + 1,
          (List.range remaining).map (fun k => baseDelay * 2 ^ (attempt + k))) := by
  intro remaining
  induction remaining with
  | zero => intro attempt; simp [withRetryGo, hf]
  | succ r ihr =>
      intro attempt
      simp only [withRetryGo, hf]
      rw [ihr (attempt + 1)]
      refine Prod.ext rfl (Prod.ext ?_ ?_)
      · simp; omega
      · simp only [List.range_succ_eq_map, List.map_cons, List.map_map]
        congr 1
        refine List.map_congr_left ?_
        intro k _
        have h2 : attempt + 1 + k = attempt + Nat.succ k := by omega
        simp [Function.comp, h2]

theorem withRetryRun_allFail {α : Type _} (f : Nat → Option α)
    (maxRetries baseDelay : Nat) (hf : ∀ a, f a = none) :
    withRetryRun f maxRetries baseDelay =
      (none, maxRetries + 1,
        (List.range maxRetries).map (fun k => baseDelay * 2 ^ k)) := by
  have h := withRetryGo_allFail f baseDelay hf maxRetries 0
  simpa [withRetryRun] using h

theorem factCheckWithAI_allFail (f : Nat → Option String)
    (hf : ∀ a, f a = none) (text : String) :
    factCheckWithAI f text = text := by
  simp [factCheckWithAI, withRetryRun_allFail f 3 1000 hf]

/-- C6: a persistently failing thunk under the retry controller with
`maxRetries = 3, baseDelay = 1000` is attempted exactly 4 times, with
back-off sleeps of `baseDelay * 2 ^ attempt` (1000ms, 2000ms, 4000ms)
between attempts and none after the last one, and the surrounding
correction unit (`factCheckWithAI`) then falls back to the original
text. -/
theorem c6_backoff_schedule (f : Nat → Option String) (hf : ∀ a, f a = none)
    (maxRetries baseDelay : Nat) (text : String) :
    withRetryRun f maxRetries baseDelay =
      (none, maxRetries + 1,
        (List.range maxRetries).map (fun a => baseDelay * 2 ^ a)) ∧
    withRetryRun f 3 1000 = (none, 4, [1000, 2000, 4000]) ∧
    factCheckWithAI f text = text := by
  refine ⟨withRetryRun_allFail f maxRetries baseDelay hf, ?_,
    factCheckWithAI_allFail f hf text⟩
  rw [withRetryRun_allFail f 3 1000 hf]
  decide

/-- Witness for C6 at the concrete always-failing thunk. -/
theorem c6_backoff_schedule_witness :
    withRetryRun (fun _ => (none : Option String)) 3 1000 =
      (none, 4, [1000, 2000, 4000]) ∧
    factCheckWithAI (fun _ => none) "hello" = "hello" := by
  have h := c6_backoff_schedule (fun _ => none) (fun _ => rfl) 3 1000 "hello"
  exact ⟨h.2.1, h.2.2⟩

/-- C1 (counterexample): in the specification's concrete scenario
(7 segments "a"…"g", `batchSize = 3`, `contextLines = 3`), the context
supplied to segment index 4's correction call is `["b", "c"]`, not the
claimed `["a", "b", "c"]` — the code windows the log by the segment's
global index, so segments of one batch do not all receive the same
context. -/
theorem c1_counterexample :
    segContext specOracle configBatchSize configContextLines sevenSegs 4 =
      ["b", "c"] ∧
    segContext specOracle configBatchSize configContextLines sevenSegs 4 ≠
      ["a", "b", "c"] := by
  decide

/-- C1 (amended): the context supplied to segment `idx`'s correction call
equals the completed-corrected-texts log as it stood before `idx`'s batch
started (its first `B * (idx / B)` entries) with the first
` max(0, idx - C)` entries dropped — a per-index window, not an identical
last-`C` window for the whole batch — and the prompt builder inside
`factCheckWithAI` uses this context unchanged, since it never exceeds `C`
entries. -/
theorem c1_context_window (fc : Nat → String → List String → String)
    (B C : Nat) (hB : 1 ≤ B) (T : List TranscriptItem) (idx : Nat)
    (item : TranscriptItem) (h : T[idx]? = some item) :
    segContext fc B C T idx =
      (((enhance fc B C T).map (fun r => r.text)).take (B * (idx / B))).drop
        (idx - C) ∧
    promptContext C (segContext fc B C T idx) = segContext fc B C T idx := by
  have hs := (segContext_spec fc B C hB T idx item h).2
  refine ⟨hs, ?_⟩
  by_cases hC : C = 0
  · simp [promptContext, jsSliceLast, hC]
  · have hlen : (segContext fc B C T idx).length ≤ C := by
      rw [hs]
      have h1 := Nat.mul_div_le idx B
      simp only [List.length_drop, List.length_take, List.length_map]
      omega
    simp [promptContext, jsSliceLast, hC, Nat.sub_eq_zero_of_le hlen]

/-- Witness for C1 (amended) at the concrete scenario, segment index 4. -/
theorem c1_context_window_witness :
    segContext specOracle 3 3 sevenSegs 4 =
      (((enhance specOracle 3 3 sevenSegs).map (fun r => r.text)).take
        (3 * (4 / 3))).drop (4 - 3) ∧
    promptContext 3 (segContext specOracle 3 3 sevenSegs 4) =
      segContext specOracle 3 3 sevenSegs 4 :=
  c1_context_window specOracle 3 3 (by decide) sevenSegs 4
    ⟨"e", 1, 4, none, none, none⟩ (by decide)

/-- C2: every entry of the context supplied to segment `idx`'s correction
call is the corrected text of a segment at a position strictly below
`idx`'s batch start (`B * (idx / B)`), hence of a segment in a strictly
earlier batch — the completed-texts log is appended to only after a
batch's fan-in, so a segment never sees output of its own batch. -/
theorem c2_context_batch_boundary (fc : Nat → String → List String → String)
    (B C : Nat) (hB : 1 ≤ B) (T : List TranscriptItem) (idx : Nat)
    (item : TranscriptItem) (h : T[idx]? = some item) :
    ∀ t ∈ segContext fc B C T idx,
      ∃ p, p < B * (idx / B) ∧ p / B < idx / B ∧
        ((enhance fc B C T).map (fun r => r.text))[p]? = some t := by
  intro t ht
  rw [(segContext_spec fc B C hB T idx item h).2] at ht
  have ht' := List.mem_of_mem_drop ht
  obtain ⟨p, hp⟩ := List.mem_iff_getElem?.mp ht'
  rw [List.getElem?_take] at hp
  by_cases hplt : p < B * (idx / B)
  · rw [if_pos hplt] at hp
    refine ⟨p, hplt, ?_, hp⟩
    rw [Nat.div_lt_iff_lt_mul (by omega : 0 < B), Nat.mul_comm]
    exact hplt
  · rw [if_neg hplt] at hp
    exact absurd hp (by simp)

/-- Witness for C2: in the concrete scenario, the context entry "b" of
segment 4 is the corrected text of a segment before batch start 3. -/
theorem c2_context_batch_boundary_witness :
    ∃ p, p < 3 * (4 / 3) ∧ p / 3 < 4 / 3 ∧
      ((enhance specOracle 3 3 sevenSegs).map (fun r => r.text))[p]? =
        some "b" :=
  c2_context_batch_boundary specOracle 3 3 (by decide) sevenSegs 4
    ⟨"e", 1, 4, none, none, none⟩ (by decide) "b" (by decide)

theorem enhance_getElem?_eq (fc : Nat → String → List String → String)
    (B C : Nat) (hB : 1 ≤ B) (T : List TranscriptItem) (idx : Nat)
    (item : TranscriptItem) (h : T[idx]? = some item) :
    (enhance fc B C T)[idx]? =
      some (correctItem fc idx (segContext fc B C T idx) item) := by
  have hs := (segContext_spec fc B C hB T idx item h).1
  simp only [enhance, List.getElem?_map, hs]
  rfl

/-- C3: for every non-empty input sequence, the enhancement endpoint
answers successfully with a sequence of exactly the same length, whose
entry at index `idx` is produced (by `correctItem`) from the input
segment at index `idx`. -/
theorem c3_order_preservation (fc : Nat → String → List String → String)
    (B C : Nat) (hB : 1 ≤ B) (T : List TranscriptItem) (hT : T ≠ []) :
    enhanceEndpoint fc B C (some T) = Except.ok (enhance fc B C T) ∧
    (enhance fc B C T).length = T.length ∧
    ∀ idx item, T[idx]? = some item →
      (enhance fc B C T)[idx]? =
        some (correctItem fc idx (segContext fc B C T idx) item) := by
  refine ⟨?_, enhance_length fc B C hB T, ?_⟩
  · cases T with
    | nil => exact absurd rfl hT
    | cons a t => rfl
  · intro idx item h
    exact enhance_getElem?_eq fc B C hB T idx item h

/-- Witness for C3 at the concrete seven-segment scenario. -/
theorem c3_order_preservation_witness :
    enhanceEndpoint specOracle 3 3 (some sevenSegs) =
      Except.ok (enhance specOracle 3 3 sevenSegs) ∧
    (enhance specOracle 3 3 sevenSegs).length = sevenSegs.length :=
  ⟨(c3_order_preservation specOracle 3 3 (by decide) sevenSegs (by decide)).1,
   (c3_order_preservation specOracle 3 3 (by decide) sevenSegs (by decide)).2.1⟩

/-- C4: for every pipeline output, the `hasError` flag is exactly the
case-sensitive, end-trimmed inequality test between the corrected text
and the input text, and when it is set the `original` and `corrected`
fields echo the untrimmed input text and the untrimmed corrected text. -/
theorem c4_change_flag (fc : Nat → String → List String → String)
    (B C : Nat) (hB : 1 ≤ B) (T : List TranscriptItem) (idx : Nat)
    (item out : TranscriptItem) (h1 : T[idx]? = some item)
    (h2 : (enhance fc B C T)[idx]? = some out) :
    out.hasError = some (jsTrim out.text != jsTrim item.text) ∧
    (jsTrim out.text ≠ jsTrim item.text →
      out.original = some item.text ∧ out.corrected = some out.text) := by
  have he := enhance_getElem?_eq fc B C hB T idx item h1
  rw [he] at h2
  have hout : out = correctItem fc idx (segContext fc B C T idx) item :=
    (Option.some.inj h2).symm
  subst hout
  refine ⟨rfl, ?_⟩
  intro hne
  simp only [correctItem] at hne ⊢
  simp [bne_iff_ne, hne]

/-- Witness for C4 at the concrete scenario, segment index 4
("e" corrected to "E"). -/
theorem c4_change_flag_witness :
    (⟨"E", 1, 4, some "e", some "E", some true⟩ : TranscriptItem).original =
        some "e" ∧
    (⟨"E", 1, 4, some "e", some "E", some true⟩ : TranscriptItem).corrected =
        some "E" :=
  (c4_change_flag specOracle 3 3 (by decide) sevenSegs 4
    ⟨"e", 1, 4, none, none, none⟩ ⟨"E", 1, 4, some "e", some "E", some true⟩
    (by decide) (by decide)).2 (by decide)

/-- C5 (counterexample): with an input text carrying a trailing space and
an oracle answer equal to its trim, the output has `hasError = false` but
its `text` field is the corrected text "a", not the original input text
"a " — the code always stores the corrected text, even for unchanged
segments. -/
theorem c5_counterexample :
    enhance (fun _ _ _ => "a") 3 3 [⟨"a ", 1, 0, none, none, none⟩] =
      [⟨"a", 1, 0, none, none, some false⟩] ∧
    ("a " : String) ≠ "a" := by
  decide

/-- C5 (amended): when a pipeline output has `hasError = false`, its
`original` and `corrected` fields are absent and its `text` field agrees
with the input text up to leading/trailing whitespace (it is the
corrected text, which need not be byte-identical to the input). -/
theorem c5_unchanged_fields (fc : Nat → String → List String → String)
    (B C : Nat) (hB : 1 ≤ B) (T : List TranscriptItem) (idx : Nat)
    (item out : TranscriptItem) (h1 : T[idx]? = some item)
    (h2 : (enhance fc B C T)[idx]? = some out)
    (hfalse : out.hasError = some false) :
    out.original = none ∧ out.corrected = none ∧
    jsTrim out.text = jsTrim item.text := by
  have he := enhance_getElem?_eq fc B C hB T idx item h1
  rw [he] at h2
  have hout : out = correctItem fc idx (segContext fc B C T idx) item :=
    (Option.some.inj h2).symm
  subst hout
  simp only [correctItem] at hfalse
  have hb : (jsTrim (fc idx item.text (segContext fc B C T idx)) !=
      jsTrim item.text) = false := Option.some.inj hfalse
  have heq : jsTrim (fc idx item.text (segContext fc B C T idx)) =
      jsTrim item.text := by
    simpa using hb
  refine ⟨?_, ?_, ?_⟩ <;> simp [correctItem, hb, heq]

/-- Witness for C5 (amended) at the whitespace-only difference input. -/
theorem c5_unchanged_fields_witness :
    (⟨"a", 1, 0, none, none, some false⟩ : TranscriptItem).original = none ∧
    (⟨"a", 1, 0, none, none, some false⟩ : TranscriptItem).corrected = none ∧
    jsTrim (⟨"a", 1, 0, none, none, some false⟩ : TranscriptItem).text =
      jsTrim (⟨"a ", 1, 0, none, none, none⟩ : TranscriptItem).text :=
  c5_unchanged_fields (fun _ _ _ => "a") 3 3 (by decide)
    [⟨"a ", 1, 0, none, none, none⟩] 0 ⟨"a ", 1, 0, none, none, none⟩
    ⟨"a", 1, 0, none, none, some false⟩ (by decide) (by decide) (by decide)

/-- C10: every pipeline output keeps the input segment's fields other
than `text`, `original`, `corrected`, `hasError` — in particular
`duration` and `offset` — unchanged. -/
theorem c10_frame_fields (fc : Nat → String → List String → String)
    (B C : Nat) (hB : 1 ≤ B) (T : List TranscriptItem) (idx : Nat)
    (item out : TranscriptItem) (h1 : T[idx]? = some item)
    (h2 : (enhance fc B C T)[idx]? = some out) :
    out.duration = item.duration ∧ out.offset = item.offset := by
  have he := enhance_getElem?_eq fc B C hB T idx item h1
  rw [he] at h2
  have hout : out = correctItem fc idx (segContext fc B C T idx) item :=
    (Option.some.inj h2).symm
  subst hout
  exact ⟨rfl, rfl⟩

/-- Witness for C10 at the concrete scenario, segment index 4. -/
theorem c10_frame_fields_witness :
    (⟨"E", 1, 4, some "e", some "E", some true⟩ : TranscriptItem).duration =
        (⟨"e", 1, 4, none, none, none⟩ : TranscriptItem).duration ∧
    (⟨"E", 1, 4, some "e", some "E", some true⟩ : TranscriptItem).offset =
        (⟨"e", 1, 4, none, none, none⟩ : TranscriptItem).offset :=
  c10_frame_fields specOracle 3 3 (by decide) sevenSegs 4
    ⟨"e", 1, 4, none, none, none⟩ ⟨"E", 1, 4, some "e", some "E", some true⟩
    (by decide) (by decide)

/-- C7: if the correction oracle fails on every attempt of every call,
the pipeline still returns a full result in which every output segment
equals its input segment (`factCheckWithAI` falls back to the original
text, so `hasError = false` and no `original`/`corrected` fields), and
the endpoint answers successfully — no per-segment error becomes a run
failure. -/
theorem c7_fallback_idempotence (fA : Nat → Nat → Option String)
    (hf : ∀ i a, fA i a = none) (B C : Nat) (hB : 1 ≤ B)
    (T : List TranscriptItem) :
    enhance (fun i t _ => factCheckWithAI (fA i) t) B C T =
      T.map clearedItem ∧
    (T ≠ [] →
      enhanceEndpoint (fun i t _ => factCheckWithAI (fA i) t) B C (some T) =
        Except.ok (T.map clearedItem)) := by
  have hmain : enhance (fun i t _ => factCheckWithAI (fA i) t) B C T =
      T.map clearedItem := by
    apply List.ext_getElem?
    intro n
    by_cases hn : n < T.length
    · have hsome : T[n]? = some (T.get ⟨n, hn⟩) := by
        rw [List.getElem?_eq_getElem hn, List.get_eq_getElem]
      rw [enhance_getElem?_eq _ B C hB T n _ hsome, List.getElem?_map, hsome]
      obtain ⟨tx, du, off, orig, corr, herr⟩ := T.get ⟨n, hn⟩
      simp [correctItem, clearedItem, factCheckWithAI_allFail _ (hf n)]
    · push_neg at hn
      rw [List.getElem?_eq_none (by rwa [enhance_length _ B C hB T]),
        List.getElem?_eq_none (by rwa [List.length_map])]
  refine ⟨hmain, ?_⟩
  intro hT
  have hend : enhanceEndpoint (fun i t _ => factCheckWithAI (fA i) t) B C
      (some T) = Except.ok (enhance (fun i t _ => factCheckWithAI (fA i) t)
        B C T) := by
    cases T with
    | nil => exact absurd rfl hT
    | cons a t => rfl
  rw [hend, hmain]

/-- Witness for C7: the always-failing oracle on the seven-segment
scenario. -/
theorem c7_fallback_idempotence_witness :
    enhance (fun i t _ => factCheckWithAI ((fun _ _ => none) i) t) 3 3
        sevenSegs = sevenSegs.map clearedItem :=
  (c7_fallback_idempotence (fun _ _ => none) (fun _ _ => rfl) 3 3 (by decide)
    sevenSegs).1

/-- C8 (counterexample): the correction invoker passes no abort signal to
its transport call, so a call whose elapsed time (31000 ms) exceeds any
caller deadline still returns the trimmed completion successfully — it
does not fail with a timeout error; its outcome is independent of elapsed
time. -/
theorem c8_counterexample :
    makeRequest 31000 ⟨true, 200, some " fixed "⟩ =
      InvokeResult.success "fixed" ∧
    makeRequest 31000 ⟨true, 200, some " fixed "⟩ =
      makeRequest 0 ⟨true, 200, some " fixed "⟩ := by
  decide

/-- C8 (amended): a single correction call fails on a non-success
transport status (with a status-bearing message), fails when the
completion field is missing or trims to empty, and on success returns the
trimmed completion text; it performs no retries itself (retry policy
lives in `withRetryRun`), and it supports no caller-supplied timeout —
its outcome is independent of elapsed time and no distinct timeout error
exists. -/
theorem c8_invoker (elapsedMs : Nat) (resp : FetchResponse) :
    makeRequest elapsedMs resp = makeRequest 0 resp ∧
    (resp.ok = false → makeRequest elapsedMs resp =
      InvokeResult.failure
        ("AI API request failed with status " ++ toString resp.status)) ∧
    (resp.ok = true → resp.content = none →
      makeRequest elapsedMs resp = InvokeResult.failure "No response from AI") ∧
    (∀ c, resp.ok = true → resp.content = some c → jsTrim c = "" →
      makeRequest elapsedMs resp = InvokeResult.failure "No response from AI") ∧
    (∀ c, resp.ok = true → resp.content = some c → jsTrim c ≠ "" →
      makeRequest elapsedMs resp = InvokeResult.success (jsTrim c)) := by
  refine ⟨rfl, ?_, ?_, ?_, ?_⟩
  · intro hok
    simp [makeRequest, fetchModel, handleResponse, hok]
  · intro hok hnone
    simp [makeRequest, fetchModel, handleResponse, hok, hnone]
  · intro c hok hc htrim
    simp [makeRequest, fetchModel, handleResponse, hok, hc, htrim]
  · intro c hok hc htrim
    simp [makeRequest, fetchModel, handleResponse, hok, hc, htrim]

/-- Witness for C8 (amended) at a failing transport status. -/
theorem c8_invoker_witness :
    makeRequest 31000 ⟨false, 500, none⟩ =
      InvokeResult.failure
        ("AI API request failed with status " ++
          toString (FetchResponse.mk false 500 none).status) :=
  (c8_invoker 31000 ⟨false, 500, none⟩).2.1 rfl

theorem validateYouTubeInput_isURL_irrelevant (isURL : String → Bool)
    (input : String)
    (h : (jsIncludes (jsTrim input) "://" ||
      jsIncludes (jsTrim input) "www.") = false) :
    validateYouTubeInput isURL input =
      validateYouTubeInput (fun _ => true) input := by
  simp only [validateYouTubeInput, h, Bool.false_and]

theorem validateYouTubeInput_isURL_true (isURL : String → Bool)
    (input : String) (h : isURL (jsTrim input) = true) :
    validateYouTubeInput isURL input =
      validateYouTubeInput (fun _ => true) input := by
  simp only [validateYouTubeInput, h]

/-- C9 (counterexample): the input "short" is 5 characters long, so it
matches the `{5,20}` identifier pattern and is accepted with identifier
"short" — it is not rejected as the claim states. -/
theorem c9_counterexample :
    validateYouTubeInput (fun _ => false) "short" =
      ⟨true, some "short", none⟩ ∧
    ("short" : String).length = 5 := by
  decide

/-- C9 (amended): identifier extraction reduces the watch, youtu.be,
shorts, embed, and bare-identifier shapes to the bare identifier with
trailing query/fragment/parameter suffixes stripped; for inputs that look
like URLs the external URL-format check must also pass, and an accepted
input always carries an identifier matching the `{5,20}` pattern.  The
5-character input "short" is accepted (the claim's "rejected" is wrong —
it miscounts "short" as 4 characters); a genuinely 4-character input such
as "shor" is rejected. -/
theorem c9_extraction (isURL : String → Bool)
    (h1 : isURL "https://youtu.be/dQw4w9WgXcQ" = true)
    (h2 : isURL "https://www.youtube.com/watch?v=dQw4w9WgXcQ&t=10" = true) :
    validateYouTubeInput isURL "https://youtu.be/dQw4w9WgXcQ" =
      ⟨true, some "dQw4w9WgXcQ", none⟩ ∧
    validateYouTubeInput isURL
        "https://www.youtube.com/watch?v=dQw4w9WgXcQ&t=10" =
      ⟨true, some "dQw4w9WgXcQ", none⟩ ∧
    extractVideoId "https://www.youtube.com/shorts/abc_-123?feature=share" =
      "abc_-123" ∧
    extractVideoId "https://www.youtube.com/embed/xyz987#t" = "xyz987" ∧
    extractVideoId "dQw4w9WgXcQ" = "dQw4w9WgXcQ" ∧
    validateYouTubeInput isURL "short" = ⟨true, some "short", none⟩ ∧
    validateYouTubeInput isURL "shor" =
      ⟨false, none, some "Could not extract valid video ID"⟩ ∧
    ∀ input, (validateYouTubeInput isURL input).valid = true →
      ∃ id, (validateYouTubeInput isURL input).videoId = some id ∧
        matchesIdPattern id = true := by
  refine ⟨?_, ?_, by decide, by decide, by decide, ?_, ?_, ?_⟩
  · rw [validateYouTubeInput_isURL_true isURL _ (by
      rw [show jsTrim "https://youtu.be/dQw4w9WgXcQ" =
        "https://youtu.be/dQw4w9WgXcQ" by decide]
      exact h1)]
    decide
  · rw [validateYouTubeInput_isURL_true isURL _ (by
      rw [show jsTrim "https://www.youtube.com/watch?v=dQw4w9WgXcQ&t=10" =
        "https://www.youtube.com/watch?v=dQw4w9WgXcQ&t=10" by decide]
      exact h2)]
    decide
  · rw [validateYouTubeInput_isURL_irrelevant isURL _ (by decide)]
    decide
  · rw [validateYouTubeInput_isURL_irrelevant isURL _ (by decide)]
    decide
  · intro input hv
    simp only [validateYouTubeInput] at hv ⊢
    split_ifs at hv ⊢ with hA hB hC hD
    exact ⟨extractVideoId (jsTrim input), rfl, by simpa using hD⟩

/-- Witness for C9 (amended) with the trivially true URL check. -/
theorem c9_extraction_witness :
    validateYouTubeInput (fun _ => true) "https://youtu.be/dQw4w9WgXcQ" =
      ⟨true, some "dQw4w9WgXcQ", none⟩ :=
  (c9_extraction (fun _ => true) rfl rfl).1
